import Mathlib

/-!
Verification development for the ECMWF data downloader (src/main.py).

The listing parser, the per-file downloader, and the batch orchestrator of
`ECMWFDownloader` are embedded as executable Lean definitions.  Strings are
treated at the level of ASCII character lists, Python floats are modelled by
exact rationals (every division performed by the code is by the power of two
1024, which is exact on the inputs exercised here), the filesystem is a map
from paths to byte lists, and the aiohttp transport is an explicit oracle
datatype enumerating the observable responses of one HTTP GET.
-/

/-! ## Character-level helpers -/

/-- ASCII whitespace, the characters matched by the regex class used in
src/main.py's directory-listing pattern. -/
def isSpaceCh (c : Char) : Bool :=
  c = ' ' || c = '\t' || c = '\n' || c = '\r' || c = '\x0b' || c = '\x0c'

/-- Longest p-satisfying front segment of a character list, together with the
remainder (the span/greedy-star primitive of the regex embedding). -/
def takeWhileCh (p : Char → Bool) : List Char → List Char × List Char
  | [] => ([], [])
  | c :: cs =>
    if p c then
      let r := takeWhileCh p cs
      (c :: r.1, r.2)
    else ([], c :: cs)

/-- Suffix test on character lists (Python str.endswith). -/
def endsWithL (s suf : List Char) : Bool :=
  decide (suf.length ≤ s.length ∧ s.drop (s.length - suf.length) = suf)

/-- Match a literal case-insensitively (the pattern in src/main.py:128 is
compiled with re.IGNORECASE); returns the unread remainder on success. -/
def matchCI : List Char → List Char → Option (List Char)
  | [], s => some s
  | _ :: _, [] => none
  | p :: ps, c :: cs => if p.toLower = c.toLower then matchCI ps cs else none

/-- Split at the first occurrence of a stop character, consuming it: this is
how a greedy negated class followed by that literal character behaves. -/
def splitAtChar (stop : Char) : List Char → Option (List Char × List Char)
  | [] => none
  | c :: cs =>
    if c = stop then some ([], cs)
    else
      match splitAtChar stop cs with
      | some (seg, rest) => some (c :: seg, rest)
      | none => none

/-- Exactly n digit characters. -/
def expectDigits : ℕ → List Char → Option (List Char × List Char)
  | 0, l => some ([], l)
  | _ + 1, [] => none
  | n + 1, c :: cs =>
    if c.isDigit then
      match expectDigits n cs with
      | some (ds, rest) => some (c :: ds, rest)
      | none => none
    else none

/-- One literal character. -/
def expectChar (ch : Char) : List Char → Option (List Char)
  | [] => none
  | c :: cs => if c = ch then some cs else none

/-- Digit list to number (int() on a decimal digit string). -/
def toNatD (ds : List Char) : ℕ :=
  ds.foldl (fun a c => 10 * a + (c.toNat - 48)) 0

/-- Python str.strip restricted to ASCII whitespace. -/
def stripCh (l : List Char) : List Char :=
  ((l.dropWhile isSpaceCh).reverse.dropWhile isSpaceCh).reverse

def startsWithL : List Char → List Char → Bool
  | _, [] => true
  | [], _ :: _ => false
  | c :: cs, p :: ps => decide (c = p) && startsWithL cs ps

def containsSub : List Char → List Char → Bool
  | [], pat => pat.isEmpty
  | c :: cs, pat => startsWithL (c :: cs) pat || containsSub cs pat

/-- urllib.parse.urljoin as exercised by src/main.py: every href scraped from a
directory listing is a relative reference joined onto a base address that ends
in a slash; absolute references are returned unchanged. -/
def urljoinRel (base rel : String) : String :=
  if containsSub rel.toList (String.toList ("://")) then rel else base ++ rel

/-! ## Forecast-hour extraction (src/main.py:135-136)

re.search of the pattern dash-digits-h-dash over the display name, returning
the digit group of the leftmost match. -/

/-- Does the text after a digit run continue with the literal h and dash that
close the pattern. -/
def hourSuffixOk : List Char → Bool
  | a :: b :: _ => decide (a = 'h') && decide (b = '-')
  | _ => false

/-- The pattern matches at a position exactly when the character there is a
dash followed by a nonempty maximal digit run whose continuation is h and a
dash (the greedy digit run backtracks only onto digits, which can never
satisfy the following literal h, so maximality is faithful); re.search takes
the leftmost such position. -/
def findHour : List Char → Option (List Char)
  | [] => none
  | c :: cs =>
    if c = '-' ∧ (takeWhileCh Char.isDigit cs).1.isEmpty = false
        ∧ hourSuffixOk (takeWhileCh Char.isDigit cs).2 = true then
      some (takeWhileCh Char.isDigit cs).1
    else findHour cs

def forecastHourOf (l : List Char) : String :=
  match findHour l with
  | some ds => String.mk ds
  | none => "unknown"

/-- The hour token as the spec words it: some occurrence of
"-&lt;digits&gt;h-" inside the display name. -/
def hasHourToken (s : List Char) : Prop :=
  ∃ pre ds post, ds ≠ [] ∧ (∀ c ∈ ds, c.isDigit = true) ∧
    s = pre ++ '-' :: (ds ++ 'h' :: '-' :: post)

/-! ## File-type classification (src/main.py:164-173) -/

/-- _get_file_type: case-sensitive endswith chain over the display name. -/
def get_file_type (filename : String) : String :=
  let l := filename.toList
  if endsWithL l (String.toList (".grib")) || endsWithL l (String.toList (".grib2")) then "GRIB"
  else if endsWithL l (String.toList (".nc")) || endsWithL l (String.toList (".netcdf")) then "NetCDF"
  else if endsWithL l (String.toList (".idx")) then "Index"
  else "Unknown"

/-- The kind derivation as the specification words it for the listing parser:
the suffix precedence applied to the same case-insensitive suffix reading by
which the scraping pattern admits a filename.  Stated separately from
get_file_type so the two can be compared. -/
def kindFromSuffixSpecCI (filename : String) : String :=
  let l := filename.toList.map Char.toLower
  if endsWithL l (String.toList (".grib")) || endsWithL l (String.toList (".grib2")) then "GRIB"
  else if endsWithL l (String.toList (".nc")) || endsWithL l (String.toList (".netcdf")) then "NetCDF"
  else if endsWithL l (String.toList (".idx")) then "Index"
  else "Unknown"

/-! ## Human-readable size (src/main.py:156-162)

The Python loop divides a float by 1024 up to four times and prints one
decimal place.  All divisions are by a power of two, hence exact on the sizes
exercised here; the float is therefore modelled by an exact rational, and the
%.1f formatting by round-half-to-even at one decimal. -/

def roundHalfEven (x : ℚ) : ℤ :=
  if x - ⌊x⌋ < 1 / 2 then ⌊x⌋
  else if 1 / 2 < x - ⌊x⌋ then ⌊x⌋ + 1
  else if ⌊x⌋ % 2 = 0 then ⌊x⌋ else ⌊x⌋ + 1

def fmtOneDecimal (q : ℚ) : String :=
  toString (roundHalfEven (q * 10) / 10) ++ "." ++ toString (roundHalfEven (q * 10) % 10)

/-- roundHalfEven for the nonnegative exact fraction num/den, in numerator
arithmetic. -/
def roundHalfEvenFrac (num den : ℕ) : ℕ :=
  if 2 * (num % den) < den then num / den
  else if den < 2 * (num % den) then num / den + 1
  else if (num / den) % 2 = 0 then num / den else num / den + 1

/-- fmtOneDecimal for the nonnegative exact fraction num/den. -/
def fmtOneDecimalFrac (num den : ℕ) : String :=
  toString (roundHalfEvenFrac (10 * num) den / 10) ++ "." ++
    toString (roundHalfEvenFrac (10 * num) den % 10)

/-- _format_file_size with the source's for-loop over B, KB, MB, GB unrolled;
the running value after k divisions is the exact rational n / 1024^k. -/
def format_file_size (size_bytes : ℕ) : String :=
  if (size_bytes : ℚ) < 1024 then fmtOneDecimal (size_bytes : ℚ) ++ " B"
  else if (size_bytes : ℚ) / 1024 < 1024 then fmtOneDecimal ((size_bytes : ℚ) / 1024) ++ " KB"
  else if (size_bytes : ℚ) / 1024 / 1024 < 1024 then
    fmtOneDecimal ((size_bytes : ℚ) / 1024 / 1024) ++ " MB"
  else if (size_bytes : ℚ) / 1024 / 1024 / 1024 < 1024 then
    fmtOneDecimal ((size_bytes : ℚ) / 1024 / 1024 / 1024) ++ " GB"
  else fmtOneDecimal ((size_bytes : ℚ) / 1024 / 1024 / 1024 / 1024) ++ " TB"

/-- Unit selection restated by byte-count thresholds: the first unit at which
the running value drops below 1024 is determined by which power of 1024 first
exceeds the size. -/
def specFormatSize (n : ℕ) : String :=
  if n < 1024 then fmtOneDecimalFrac n 1 ++ " B"
  else if n < 1048576 then fmtOneDecimalFrac n 1024 ++ " KB"
  else if n < 1073741824 then fmtOneDecimalFrac n 1048576 ++ " MB"
  else if n < 1099511627776 then fmtOneDecimalFrac n 1073741824 ++ " GB"
  else fmtOneDecimalFrac n 1099511627776 ++ " TB"

/-! ## Directory-listing scrape (src/main.py:126-129)

The scraping pattern, embedded as a deterministic matcher.  Greedy negated
character classes followed by the excluded literal match exactly up to the
first occurrence of that literal; the digit and whitespace plus-closures are
maximal runs because the character that follows them in the pattern can never
be a digit or whitespace. -/

/-- Admission test of the href group: at least one non-quote character, a dot,
and one of the data suffixes, compared case-insensitively. -/
def hrefAdmitted (href : List Char) : Bool :=
  let low := href.map Char.toLower
  (endsWithL low (String.toList (".grib")) && decide (5 < href.length)) ||
  (endsWithL low (String.toList (".grib2")) && decide (6 < href.length)) ||
  (endsWithL low (String.toList (".index")) && decide (6 < href.length)) ||
  (endsWithL low (String.toList (".nc")) && decide (3 < href.length))

/-- One tuple produced by re.findall on the listing pattern: href group,
display-name group, timestamp group, size digits, id digits. -/
structure RawEntry where
  href : List Char
  display : List Char
  stamp : List Char
  sizeDigits : List Char
  idDigits : List Char
deriving DecidableEq, Repr

/-- Anchor element of the pattern: the case-insensitive literal, the admitted
href group ending at the first quote, the skipped attribute tail ending at the
first greater-than sign, and the display-name group closed by the anchor end
tag.  Returns href, display name and the unread remainder. -/
def matchAnchor (s : List Char) : Option (List Char × List Char × List Char) :=
  (matchCI (String.toList ("<a href=")) s).bind fun r1 =>
  (expectChar '"' r1).bind fun r2 =>
  (splitAtChar '"' r2).bind fun (href, r3) =>
  if hrefAdmitted href then
    (splitAtChar '>' r3).bind fun (_, r4) =>
    (splitAtChar '<' r4).bind fun (display, r5) =>
    if display.isEmpty then none
    else (matchCI (String.toList ("/a>")) r5).bind fun r6 => some (href, display, r6)
  else none

/-- Timestamp group of the pattern: two digits, dash, two digits, dash, four
digits, whitespace, two digits, colon, two digits, captured verbatim. -/
def matchStamp (l : List Char) : Option (List Char × List Char) :=
  (expectDigits 2 l).bind fun (d1, r1) =>
  (expectChar '-' r1).bind fun r2 =>
  (expectDigits 2 r2).bind fun (d2, r3) =>
  (expectChar '-' r3).bind fun r4 =>
  (expectDigits 4 r4).bind fun (d3, r5) =>
  let sp := takeWhileCh isSpaceCh r5
  if sp.1.isEmpty then none
  else
    (expectDigits 2 sp.2).bind fun (d4, r6) =>
    (expectChar ':' r6).bind fun r7 =>
    (expectDigits 2 r7).bind fun (d5, r8) =>
    some (d1 ++ '-' :: d2 ++ '-' :: d3 ++ sp.1 ++ d4 ++ ':' :: d5, r8)

/-- Whitespace followed by a maximal nonempty digit run (the size and id
groups of the pattern). -/
def matchSpacedDigits (l : List Char) : Option (List Char × List Char) :=
  let sp := takeWhileCh isSpaceCh l
  if sp.1.isEmpty then none
  else
    let ds := takeWhileCh Char.isDigit sp.2
    if ds.1.isEmpty then none else some (ds.1, ds.2)

/-- Attempt the full listing pattern at the head of the input; on success
return the captured groups and the unread remainder. -/
def matchEntry (s : List Char) : Option (RawEntry × List Char) :=
  (matchAnchor s).bind fun (href, display, r6) =>
  let sp1 := takeWhileCh isSpaceCh r6
  if sp1.1.isEmpty then none
  else
    (matchStamp sp1.2).bind fun (stamp, r7) =>
    (matchSpacedDigits r7).bind fun (sz, r8) =>
    (matchSpacedDigits r8).bind fun (ids, r9) =>
    some (⟨href, display, stamp, sz, ids⟩, r9)

/-- re.findall: scan left to right, restarting one character later after a
failed attempt and at the unread remainder after a successful one.  The fuel
equals the input length; every step consumes at least one character, so the
fuel never runs out before the input does. -/
def scanAux : ℕ → List Char → List RawEntry
  | 0, _ => []
  | _ + 1, [] => []
  | fuel + 1, c :: cs =>
    match matchEntry (c :: cs) with
    | some (e, rest) => e :: scanAux fuel rest
    | none => scanAux fuel cs

def findall (l : List Char) : List RawEntry := scanAux l.length l

/-! ## File records (src/main.py:121-154) -/

/-- The per-file dictionary built by _parse_data_files, as a record type. -/
structure FileInfo where
  filename : String
  url : String
  date : String
  forecast_time : String
  model : String
  resolution : String
  data_type : String
  forecast_hour : String
  size : String
  raw_size : ℕ
  type : String
  modified : String
deriving DecidableEq, Repr

/-- Construction of one file dictionary from one findall tuple.  As in the
source, the stored filename is stripped while the forecast hour and the type
are derived from the raw display name. -/
def mkRecord (base_url date forecast_time model resolution data_type : String)
    (e : RawEntry) : FileInfo :=
  let base := base_url ++ date ++ "/" ++ forecast_time ++ "/" ++ model ++ "/" ++
    resolution ++ "/" ++ data_type ++ "/"
  { filename := String.mk (stripCh e.display)
    url := urljoinRel base (String.mk e.href)
    date := date
    forecast_time := forecast_time
    model := model
    resolution := resolution
    data_type := data_type
    forecast_hour := forecastHourOf e.display
    size := format_file_size (toNatD e.sizeDigits)
    raw_size := toNatD e.sizeDigits
    type := get_file_type (String.mk e.display)
    modified := String.mk e.stamp }

/-- _parse_data_files. -/
def parse_data_files (base_url html date forecast_time model resolution data_type : String) :
    List FileInfo :=
  (findall html.toList).map (mkRecord base_url date forecast_time model resolution data_type)

/-! ## Date validation (src/main.py:84-90)

datetime.strptime compiles the format YYYYMMDD to the pattern year = four
digits, month = 1[0-2] or 0[1-9] or [1-9], day = 3[01] or [12] digit or
0[1-9] or [1-9], takes the first match in backtracking preference order
(two-digit alternatives before the one-digit fallback), raises if that first
match does not consume the whole string, and finally raises if the matched
numbers are not a proleptic-Gregorian calendar date with year at least 1.
In particular some six- and seven-character strings are accepted. -/

def isLeapYear (y : ℕ) : Bool :=
  decide ((y % 4 = 0 ∧ y % 100 ≠ 0) ∨ y % 400 = 0)

def daysInMonth (y m : ℕ) : ℕ :=
  if m = 2 then (if isLeapYear y then 29 else 28)
  else if m = 4 ∨ m = 6 ∨ m = 9 ∨ m = 11 then 30
  else 31

def ch1to9 (c : Char) : Bool := c.isDigit && decide (c ≠ '0')

/-- Two-digit month alternatives 1[0-2] and 0[1-9]. -/
def mTwo (a b : Char) : Bool :=
  (decide (a = '1') && (decide (b = '0') || decide (b = '1') || decide (b = '2'))) ||
  (decide (a = '0') && ch1to9 b)

/-- Two-digit day alternatives 3[01], [12] digit and 0[1-9]. -/
def dTwo (a b : Char) : Bool :=
  (decide (a = '3') && (decide (b = '0') || decide (b = '1'))) ||
  ((decide (a = '1') || decide (a = '2')) && b.isDigit) ||
  (decide (a = '0') && ch1to9 b)

/-- First day alternative matching at the front of the input: the two-digit
forms are preferred over the one-digit fallback [1-9]. -/
def tryDay : List Char → Option (ℕ × List Char)
  | [] => none
  | [a] => if ch1to9 a then some (toNatD [a], []) else none
  | a :: b :: rest =>
    if dTwo a b then some (toNatD [a, b], rest)
    else if ch1to9 a then some (toNatD [a], b :: rest)
    else none

/-- First month-day match after the year, in the regex engine's backtracking
order: a two-digit month with the first day that fits after it, else a
one-digit month likewise.  Returns month value, day value and the leftover. -/
def firstMd : List Char → Option (ℕ × ℕ × List Char)
  | a :: b :: rest =>
    if mTwo a b then
      match tryDay rest with
      | some (d, r3) => some (toNatD [a, b], d, r3)
      | none =>
        if ch1to9 a then
          match tryDay (b :: rest) with
          | some (d, r3) => some (toNatD [a], d, r3)
          | none => none
        else none
    else if ch1to9 a then
      match tryDay (b :: rest) with
      | some (d, r3) => some (toNatD [a], d, r3)
      | none => none
    else none
  | _ => none

def validate_date_format (s : String) : Bool :=
  match s.toList with
  | y1 :: y2 :: y3 :: y4 :: r =>
    if y1.isDigit && y2.isDigit && y3.isDigit && y4.isDigit then
      match firstMd r with
      | some (m, d, rest) =>
        decide (rest = [] ∧ 1 ≤ toNatD [y1, y2, y3, y4] ∧ 1 ≤ d ∧
          d ≤ daysInMonth (toNatD [y1, y2, y3, y4]) m)
      | none => false
    else false
  | _ => false

/-- The date admission as the specification words it: a valid 8-digit
YYYYMMDD calendar date.  Stated separately from validate_date_format so the
two can be compared. -/
def specValidDate8 (s : String) : Bool :=
  let l := s.toList
  decide (l.length = 8) && l.all Char.isDigit &&
    (decide (1 ≤ toNatD (l.take 4)) && decide (1 ≤ toNatD ((l.drop 4).take 2)) &&
     decide (toNatD ((l.drop 4).take 2) ≤ 12) && decide (1 ≤ toNatD (l.drop 6)) &&
     decide (toNatD (l.drop 6) ≤ daysInMonth (toNatD (l.take 4)) (toNatD ((l.drop 4).take 2))))

/-! ## Listing fetch (src/main.py:92-119)

The transport oracle for one GET of the directory document.  raise_for_status
raises ClientResponseError for statuses of 400 and above; ClientResponseError
is a subclass of aiohttp.ClientError, so the handler at src/main.py:117-119
catches it and returns the empty list.  The natural-number component counts
HTTP requests issued by the call. -/

inductive ListingFetch where
  | clientError
  | response (status : ℕ) (body : String)
deriving DecidableEq, Repr

def list_available_files (base_url date forecast_time model resolution data_type : String)
    (net : ListingFetch) : Except String (List FileInfo) × ℕ :=
  if validate_date_format date then
    (match net with
     | .clientError => Except.ok []
     | .response status body =>
       if status = 404 then Except.ok []
       else if 400 ≤ status then Except.ok []
       else Except.ok (parse_data_files base_url body date forecast_time model resolution data_type)
    , 1)
  else
    (Except.error ("Invalid date format: " ++ date ++ ". Expected YYYYMMDD."), 0)

/-! ## Single-file download (src/main.py:175-207)

The filesystem is a map from destination paths to byte contents; the oracle
enumerates the outcomes of one streaming GET.  A clientError or an error
status raises before the destination is opened; otherwise open() truncates
the file, the listed chunks are appended, and streamFailed says whether the
stream raises afterwards.  Every raise lands in the handler at
src/main.py:203-207, which unlinks whatever exists at the destination and
returns False. -/

abbrev Fs := String → Option (List ℕ)

def fsErase (fs : Fs) (p : String) : Fs := fun q => if q = p then none else fs q

def fsWrite (fs : Fs) (p : String) (v : List ℕ) : Fs := fun q => if q = p then some v else fs q

inductive FileFetch where
  | clientError
  | response (status : ℕ) (chunks : List (List ℕ)) (streamFailed : Bool)

def download_file (fs : Fs) (path : String) (net : FileFetch) : Bool × Fs :=
  match net with
  | .clientError => (false, fsErase fs path)
  | .response status chunks streamFailed =>
    if 400 ≤ status then (false, fsErase fs path)
    else if streamFailed then (false, fsErase fs path)
    else (true, fsWrite fs path chunks.flatten)

/-! ## Batch download (src/main.py:209-243)

asyncio.gather with return_exceptions=True hands back, for every record in
order, either the boolean returned by download_file or the exception object
raised by its task; the loop at src/main.py:237-241 counts a result as a
success exactly when it is the boolean True.  The oracle assigns each record
its gather result, so every record is attempted exactly once; the string list
is the trace of per-record transfers issued. -/

inductive GatherResult where
  | ret (b : Bool)
  | exn
deriving DecidableEq, Repr

def isSuccess : GatherResult → Bool
  | .ret b => b
  | .exn => false

structure BatchResult where
  success : ℕ
  failed : ℕ
deriving DecidableEq, Repr

def countResults : List GatherResult → BatchResult
  | [] => ⟨0, 0⟩
  | r :: rs =>
    let acc := countResults rs
    if isSuccess r then ⟨acc.success + 1, acc.failed⟩ else ⟨acc.success, acc.failed + 1⟩

def download_files (files : List FileInfo) (oracle : FileInfo → GatherResult) :
    BatchResult × List String :=
  if files.isEmpty then (⟨0, 0⟩, [])
  else (countResults (files.map oracle), files.map (fun f => f.url))

/-! ## Concurrency gate (src/main.py:214-235)

asyncio.Semaphore(max_concurrent) guards download_with_progress: a task enters
flight only by taking a permit and returns it on completion.  The interleaving
of the cooperative scheduler is modelled as a transition system over the
permit counter and the per-task phases. -/

inductive TaskPhase where
  | waiting
  | inflight
  | finished
deriving DecidableEq, Repr

def isInflight : TaskPhase → Bool
  | .inflight => true
  | _ => false

def inflightCount (l : List TaskPhase) : ℕ := l.countP isInflight

structure OrchState where
  permits : ℕ
  tasks : List TaskPhase
deriving DecidableEq, Repr

inductive OrchStep : OrchState → OrchState → Prop
  | start (s : OrchState) (i : ℕ) (h : i < s.tasks.length)
      (hp : s.tasks.get ⟨i, h⟩ = TaskPhase.waiting) (hs : 0 < s.permits) :
      OrchStep s ⟨s.permits - 1, s.tasks.set i TaskPhase.inflight⟩
  | finish (s : OrchState) (i : ℕ) (h : i < s.tasks.length)
      (hp : s.tasks.get ⟨i, h⟩ = TaskPhase.inflight) :
      OrchStep s ⟨s.permits + 1, s.tasks.set i TaskPhase.finished⟩

/-- Initial state of one batch: all permits free, one waiting task per record. -/
def initState (n m : ℕ) : OrchState := ⟨n, List.replicate m TaskPhase.waiting⟩

def OrchReachable (n m : ℕ) (s : OrchState) : Prop :=
  Relation.ReflTransGen OrchStep (initState n m) s

/-! ## Concrete instances used by the closed theorems below -/

/-- ECMWF_BASE_URL (src/main.py:33). -/
def ecmwfBase : String := "https://data.ecmwf.int/forecasts/"

/-- A directory-listing document whose single entry carries an upper-case
data suffix; the scraping pattern admits it case-insensitively. -/
def docC5 : String := "<a href=\"X.GRIB2\">X.GRIB2</a> 17-06-2025 12:00 100 1"

def c5entry : RawEntry :=
  ⟨"X.GRIB2".toList, "X.GRIB2".toList, "17-06-2025 12:00".toList, "100".toList, "1".toList⟩

def c5rec : FileInfo := mkRecord ecmwfBase "20250617" "12z" "ifs" "0p25" "oper" c5entry

/-- A minimal file record, for exercising the batch orchestrator. -/
def mkFI (n : String) : FileInfo := ⟨n, "", "", "", "", "", "", "", "", 0, "", ""⟩

def c3files : List FileInfo := [mkFI "a", mkFI "b", mkFI "c"]

/-- Gather oracle that fails exactly the record named b with an unexpected
exception. -/
def c3oracle : FileInfo → GatherResult :=
  fun f => if f.filename = "b" then GatherResult.exn else GatherResult.ret true

/-! ## Helper lemmas -/

theorem countResults_success_eq (rs : List GatherResult) :
    (countResults rs).success = (rs.filter (fun r => isSuccess r)).length := by
  induction rs with
  | nil => rfl
  | cons r rs ih => cases hr : isSuccess r <;> simp [countResults, List.filter_cons, hr, ih]

theorem countResults_failed_eq (rs : List GatherResult) :
    (countResults rs).failed = (rs.filter (fun r => !(isSuccess r))).length := by
  induction rs with
  | nil => rfl
  | cons r rs ih => cases hr : isSuccess r <;> simp [countResults, List.filter_cons, hr, ih]

theorem countResults_sum (rs : List GatherResult) :
    (countResults rs).success + (countResults rs).failed = rs.length := by
  induction rs with
  | nil => rfl
  | cons r rs ih => cases hr : isSuccess r <;> simp [countResults, hr] <;> omega

theorem length_filter_add {α : Type} (p : α → Bool) (rs : List α) :
    (rs.filter p).length + (rs.filter (fun r => !(p r))).length = rs.length := by
  induction rs with
  | nil => rfl
  | cons r rs ih => cases hr : p r <;> simp [List.filter_cons, hr] <;> omega

/-! ## Claims about the single-file downloader -/

/-- Claim C1: every transfer attempt by download_file that fails on a
transport or I/O error leaves no file at the destination path — the
exception handler unlinks the destination before the attempt is reported as
failed, so the path is absent rather than holding partial bytes. -/
theorem claimC1_failed_download_leaves_no_file (fs : Fs) (path : String) (net : FileFetch)
    (h : (download_file fs path net).1 = false) :
    (download_file fs path net).2 path = none := by
  cases net with
  | clientError => simp [download_file, fsErase]
  | response status chunks streamFailed =>
    by_cases h4 : 400 ≤ status
    · simp [download_file, h4, fsErase]
    · by_cases hsf : streamFailed
      · simp [download_file, h4, hsf, fsErase]
      · simp [download_file, h4, hsf] at h

theorem claimC1_failed_download_leaves_no_file_witness :
    (download_file (fun _ => none) "f" (FileFetch.response 200 [[1]] true)).1 = false ∧
    (download_file (fun _ => none) "f" (FileFetch.response 200 [[1]] true)).2 "f" = none :=
  ⟨rfl, claimC1_failed_download_leaves_no_file (fun _ => none) "f"
    (FileFetch.response 200 [[1]] true) rfl⟩

/-- Claim C10: on a failed attempt download_file deletes whatever file sits at
the destination path when the handler runs, including a complete file that
predates the attempt — here the attempt fails on its status check and writes
nothing, yet the pre-existing content is unlinked (likewise on a connection
error). -/
theorem claimC10_failure_deletes_preexisting (fs : Fs) (path : String) (content : List ℕ)
    (status : ℕ) (hpre : fs path = some content) (hst : 400 ≤ status) :
    (download_file fs path (FileFetch.response status [] false)).1 = false ∧
    (download_file fs path (FileFetch.response status [] false)).2 path = none ∧
    (download_file fs path FileFetch.clientError).2 path = none := by
  refine ⟨?_, ?_, ?_⟩ <;> simp [download_file, hst, fsErase]

theorem claimC10_failure_deletes_preexisting_witness :
    (download_file (fun q => if q = "p" then some [7] else none) "p"
      (FileFetch.response 404 [] false)).1 = false ∧
    (download_file (fun q => if q = "p" then some [7] else none) "p"
      (FileFetch.response 404 [] false)).2 "p" = none ∧
    (download_file (fun q => if q = "p" then some [7] else none) "p"
      FileFetch.clientError).2 "p" = none :=
  claimC10_failure_deletes_preexisting (fun q => if q = "p" then some [7] else none)
    "p" [7] 404 rfl (by decide)

/-! ## Claims about the batch orchestrator's aggregation -/

/-- Claim C9: for any record sequence the batch result partitions it —
succeeded plus failed equals the number of records, each record contributing
exactly one outcome — and the empty sequence yields zero counts with no
transport activity (an empty effect trace). -/
theorem claimC9_batch_counts (files : List FileInfo) (oracle : FileInfo → GatherResult) :
    (download_files files oracle).1.success + (download_files files oracle).1.failed
      = files.length ∧
    download_files [] oracle = (⟨0, 0⟩, []) := by
  constructor
  · cases files with
    | nil => rfl
    | cons f fsr =>
      simp [download_files, countResults_sum]
  · rfl

/-- Claim C3: one record's failure does not disturb its siblings — every
record is mapped to exactly one gather outcome, succeeded counts exactly the
outcomes that returned True, failed counts everything else including
unexpected exceptions (which are absorbed, never re-raised), and when exactly
one of the outcomes is a failure the batch result is records minus one
successes and one failure. -/
theorem claimC3_failure_isolation (files : List FileInfo) (oracle : FileInfo → GatherResult) :
    (download_files files oracle).1.success
      = ((files.map oracle).filter (fun r => isSuccess r)).length ∧
    (download_files files oracle).1.failed
      = ((files.map oracle).filter (fun r => !(isSuccess r))).length ∧
    (((files.map oracle).filter (fun r => !(isSuccess r))).length = 1 →
      (download_files files oracle).1 = ⟨files.length - 1, 1⟩) := by
  cases files with
  | nil =>
    refine ⟨rfl, rfl, ?_⟩
    intro h
    simp at h
  | cons f fsr =>
    refine ⟨?_, ?_, ?_⟩
    · simp [download_files, countResults_success_eq]
    · simp [download_files, countResults_failed_eq]
    · intro h1
      have e1 := countResults_success_eq ((f :: fsr).map oracle)
      have e2 := countResults_failed_eq ((f :: fsr).map oracle)
      have e3 := length_filter_add (fun r => isSuccess r) ((f :: fsr).map oracle)
      have hlen : ((f :: fsr).map oracle).length = (f :: fsr).length := List.length_map _ _
      have hfail : (countResults ((f :: fsr).map oracle)).failed = 1 := by rw [e2]; exact h1
      have hsucc : (countResults ((f :: fsr).map oracle)).success = (f :: fsr).length - 1 := by
        rw [e1]; omega
      have hres : download_files (f :: fsr) oracle
          = (countResults ((f :: fsr).map oracle), (f :: fsr).map (fun x => x.url)) := by
        simp [download_files]
      rw [hres]
      calc countResults ((f :: fsr).map oracle)
          = ⟨(countResults ((f :: fsr).map oracle)).success,
             (countResults ((f :: fsr).map oracle)).failed⟩ := rfl
        _ = ⟨(f :: fsr).length - 1, 1⟩ := by rw [hsucc, hfail]

theorem claimC3_failure_isolation_witness :
    (download_files c3files c3oracle).1 = ⟨2, 1⟩ :=
  (claimC3_failure_isolation c3files c3oracle).2.2 (by decide)

/-! ## Claim about size formatting -/

theorem cast_lt_1024 (n : ℕ) : ((n : ℚ) < 1024) ↔ n < 1024 := by
  exact_mod_cast Iff.rfl

theorem cast_div1_lt (n : ℕ) : ((n : ℚ) / 1024 < 1024) ↔ n < 1048576 := by
  rw [div_lt_iff₀ (by norm_num : (0:ℚ) < 1024)]
  rw [show ((1024 : ℚ) * 1024) = ((1048576 : ℕ) : ℚ) by norm_num]
  exact Nat.cast_lt

theorem cast_div2_lt (n : ℕ) : ((n : ℚ) / 1024 / 1024 < 1024) ↔ n < 1073741824 := by
  rw [div_div, div_lt_iff₀ (by norm_num : (0:ℚ) < 1024 * 1024)]
  rw [show ((1024 : ℚ) * (1024 * 1024)) = ((1073741824 : ℕ) : ℚ) by norm_num]
  exact Nat.cast_lt

theorem cast_div3_lt (n : ℕ) : ((n : ℚ) / 1024 / 1024 / 1024 < 1024) ↔ n < 1099511627776 := by
  rw [div_div, div_div, div_lt_iff₀ (by norm_num : (0:ℚ) < 1024 * (1024 * 1024))]
  rw [show ((1024 : ℚ) * (1024 * (1024 * 1024))) = ((1099511627776 : ℕ) : ℚ) by norm_num]
  exact Nat.cast_lt

theorem div2_eq (n : ℕ) : (n : ℚ) / 1024 / 1024 = (n : ℚ) / ((1048576 : ℕ) : ℚ) := by
  rw [div_div]; norm_num

theorem div3_eq (n : ℕ) : (n : ℚ) / 1024 / 1024 / 1024 = (n : ℚ) / ((1073741824 : ℕ) : ℚ) := by
  rw [div_div, div_div]; norm_num

theorem div4_eq (n : ℕ) :
    (n : ℚ) / 1024 / 1024 / 1024 / 1024 = (n : ℚ) / ((1099511627776 : ℕ) : ℚ) := by
  rw [div_div, div_div, div_div]; norm_num

theorem roundHalfEven_div (N d : ℕ) (hd : 0 < d) :
    roundHalfEven ((N : ℚ) / (d : ℚ)) = (roundHalfEvenFrac N d : ℤ) := by
  have hdpos : (0 : ℚ) < d := by exact_mod_cast hd
  have hd0 : ((d : ℚ)) ≠ 0 := ne_of_gt hdpos
  have hfloor : ⌊(N : ℚ) / (d : ℚ)⌋ = ((N / d : ℕ) : ℤ) := by
    rw [Rat.floor_natCast_div_natCast N d]
    exact (Int.natCast_div N d).symm
  have hcast : ((((N / d : ℕ) : ℤ)) : ℚ) = ((N / d : ℕ) : ℚ) := Int.cast_natCast _
  have key : ((d : ℚ)) * ((N / d : ℕ) : ℚ) + ((N % d : ℕ) : ℚ) = (N : ℚ) := by
    exact_mod_cast Nat.div_add_mod N d
  have hfrac : (N : ℚ) / (d : ℚ) - ((N / d : ℕ) : ℚ) = ((N % d : ℕ) : ℚ) / (d : ℚ) := by
    field_simp
    linarith
  have hhalf1 : (((N % d : ℕ) : ℚ) / (d : ℚ) < 1 / 2) ↔ 2 * (N % d) < d := by
    rw [div_lt_div_iff₀ hdpos (by norm_num : (0:ℚ) < 2), one_mul, mul_comm]
    exact_mod_cast Iff.rfl
  have hhalf2 : ((1 : ℚ) / 2 < ((N % d : ℕ) : ℚ) / (d : ℚ)) ↔ d < 2 * (N % d) := by
    rw [div_lt_div_iff₀ (by norm_num : (0:ℚ) < 2) hdpos, one_mul, mul_comm]
    exact_mod_cast Iff.rfl
  have hpar : ((((N / d : ℕ) : ℤ)) % 2 = 0) ↔ (N / d) % 2 = 0 := by exact_mod_cast Iff.rfl
  unfold roundHalfEven roundHalfEvenFrac
  rw [hfloor, hcast, hfrac]
  simp only [hhalf1, hhalf2, hpar]
  split_ifs <;> push_cast <;> ring

theorem toString_natCast_int (k : ℕ) : toString ((k : ℤ)) = toString k := rfl

theorem fmtOneDecimal_div (n d : ℕ) (hd : 0 < d) :
    fmtOneDecimal ((n : ℚ) / (d : ℚ)) = fmtOneDecimalFrac n d := by
  unfold fmtOneDecimal fmtOneDecimalFrac
  have h10 : ((n : ℚ) / (d : ℚ)) * 10 = ((10 * n : ℕ) : ℚ) / (d : ℚ) := by push_cast; ring
  rw [h10, roundHalfEven_div (10 * n) d hd]
  have hdiv : ((roundHalfEvenFrac (10 * n) d : ℤ)) / 10
      = ((roundHalfEvenFrac (10 * n) d / 10 : ℕ) : ℤ) := by norm_cast
  have hmod : ((roundHalfEvenFrac (10 * n) d : ℤ)) % 10
      = ((roundHalfEvenFrac (10 * n) d % 10 : ℕ) : ℤ) := by norm_cast
  rw [hdiv, hmod, toString_natCast_int, toString_natCast_int]

theorem format_file_size_eq_spec (n : ℕ) : format_file_size n = specFormatSize n := by
  have hb : fmtOneDecimal ((n : ℚ)) = fmtOneDecimalFrac n 1 := by
    have h := fmtOneDecimal_div n 1 (by norm_num)
    simpa using h
  have h1 : fmtOneDecimal ((n : ℚ) / 1024) = fmtOneDecimalFrac n 1024 := by
    rw [show ((1024 : ℚ)) = ((1024 : ℕ) : ℚ) by norm_num]
    exact fmtOneDecimal_div n 1024 (by norm_num)
  have h2 : fmtOneDecimal ((n : ℚ) / 1024 / 1024) = fmtOneDecimalFrac n 1048576 := by
    rw [div2_eq]
    exact fmtOneDecimal_div n 1048576 (by norm_num)
  have h3 : fmtOneDecimal ((n : ℚ) / 1024 / 1024 / 1024) = fmtOneDecimalFrac n 1073741824 := by
    rw [div3_eq]
    exact fmtOneDecimal_div n 1073741824 (by norm_num)
  have h4 : fmtOneDecimal ((n : ℚ) / 1024 / 1024 / 1024 / 1024)
      = fmtOneDecimalFrac n 1099511627776 := by
    rw [div4_eq]
    exact fmtOneDecimal_div n 1099511627776 (by norm_num)
  unfold format_file_size specFormatSize
  simp only [cast_lt_1024, cast_div1_lt, cast_div2_lt, cast_div3_lt]
  simp only [hb, h1, h2, h3, h4]

/-- Claim C6: humanSize is the repeated division by 1024 through B, KB, MB,
GB with one decimal place at the first unit whose running value is below
1024, falling through to TB; equivalently the unit is selected by powers of
1024, and on the spec's examples 1536 formats as 1.5 KB, 500 as 500.0 B and
1073741824 as 1.0 GB. -/
theorem claimC6_human_size :
    (∀ n : ℕ, format_file_size n = specFormatSize n) ∧
    format_file_size 1536 = "1.5 KB" ∧ format_file_size 500 = "500.0 B" ∧
    format_file_size 1073741824 = "1.0 GB" := by
  refine ⟨format_file_size_eq_spec, ?_, ?_, ?_⟩ <;>
    rw [format_file_size_eq_spec] <;> decide

/-! ## Claim about the concurrency gate -/

theorem inflightCount_replicate (m : ℕ) :
    inflightCount (List.replicate m TaskPhase.waiting) = 0 := by
  induction m with
  | zero => rfl
  | succ k ih => simp [inflightCount, List.replicate, List.countP_cons, isInflight, ih]

theorem inflightCount_set_start (l : List TaskPhase) (i : ℕ) (h : i < l.length)
    (hp : l.get ⟨i, h⟩ = TaskPhase.waiting) :
    inflightCount (l.set i TaskPhase.inflight) = inflightCount l + 1 := by
  induction l generalizing i with
  | nil => simp at h
  | cons a t ih =>
    cases i with
    | zero =>
      simp only [List.get] at hp
      subst hp
      simp [inflightCount, List.set, List.countP_cons, isInflight]
    | succ j =>
      simp only [List.get] at hp
      have hj : j < t.length := by simpa using h
      simp [inflightCount, List.set, List.countP_cons] at *
      have := ih j hj hp
      simp [inflightCount] at this
      omega

theorem inflightCount_set_finish (l : List TaskPhase) (i : ℕ) (h : i < l.length)
    (hp : l.get ⟨i, h⟩ = TaskPhase.inflight) :
    inflightCount l = inflightCount (l.set i TaskPhase.finished) + 1 := by
  induction l generalizing i with
  | nil => simp at h
  | cons a t ih =>
    cases i with
    | zero =>
      simp only [List.get] at hp
      subst hp
      simp [inflightCount, List.set, List.countP_cons, isInflight]
    | succ j =>
      simp only [List.get] at hp
      have hj : j < t.length := by simpa using h
      simp [inflightCount, List.set, List.countP_cons] at *
      have := ih j hj hp
      simp [inflightCount] at this
      omega

/-- The permit-counting invariant of the semaphore: free permits plus in-flight
transfers always equal the configured limit, and the task list keeps its
length. -/
theorem orch_step_inv (n m : ℕ) (s t : OrchState) (hstep : OrchStep s t)
    (h1 : s.permits + inflightCount s.tasks = n) (h2 : s.tasks.length = m) :
    t.permits + inflightCount t.tasks = n ∧ t.tasks.length = m := by
  cases hstep with
  | start i h hp hs =>
    have hc := inflightCount_set_start s.tasks i h hp
    constructor
    · show s.permits - 1 + inflightCount (s.tasks.set i TaskPhase.inflight) = n
      omega
    · show (s.tasks.set i TaskPhase.inflight).length = m
      rw [List.length_set]
      exact h2
  | finish i h hp =>
    have hc := inflightCount_set_finish s.tasks i h hp
    constructor
    · show s.permits + 1 + inflightCount (s.tasks.set i TaskPhase.finished) = n
      omega
    · show (s.tasks.set i TaskPhase.finished).length = m
      rw [List.length_set]
      exact h2

theorem orch_invariant (n m : ℕ) (s : OrchState) (hr : OrchReachable n m s) :
    s.permits + inflightCount s.tasks = n ∧ s.tasks.length = m := by
  induction hr with
  | refl => simp [initState, inflightCount_replicate]
  | tail _ step ih => exact orch_step_inv n m _ _ step ih.1 ih.2

/-- Claim C2: under a semaphore initialised with n permits, in every state
reachable by interleaved start/finish steps of a batch of m records at most n
transfers are in flight, whatever m is; and immediately after an in-flight
transfer finishes, any still-waiting record can start (the returned permit
re-enables admission). -/
theorem claimC2_concurrency_ceiling (n m : ℕ) (hn : 1 ≤ n) :
    (∀ s, OrchReachable n m s → inflightCount s.tasks ≤ n) ∧
    (∀ s i (h : i < s.tasks.length), OrchReachable n m s →
      s.tasks.get ⟨i, h⟩ = TaskPhase.inflight →
      ∀ j (hj : j < (s.tasks.set i TaskPhase.finished).length),
        (s.tasks.set i TaskPhase.finished).get ⟨j, hj⟩ = TaskPhase.waiting →
        ∃ s', OrchStep ⟨s.permits + 1, s.tasks.set i TaskPhase.finished⟩ s') := by
  constructor
  · intro s hr
    have h1 := (orch_invariant n m s hr).1
    omega
  · intro s i h hr hinf j hj hw
    exact ⟨_, OrchStep.start ⟨s.permits + 1, s.tasks.set i TaskPhase.finished⟩ j hj hw
      (Nat.succ_pos _)⟩

theorem claimC2_concurrency_ceiling_witness :
    inflightCount (initState 1 2).tasks ≤ 1 ∧
    (∃ s', OrchStep ⟨1, [TaskPhase.finished, TaskPhase.waiting]⟩ s') := by
  constructor
  · exact (claimC2_concurrency_ceiling 1 2 (by decide)).1 (initState 1 2)
      Relation.ReflTransGen.refl
  · have hstep : OrchStep (initState 1 2) ⟨0, [TaskPhase.inflight, TaskPhase.waiting]⟩ := by
      have h := OrchStep.start (initState 1 2) 0 (by decide) rfl (by decide)
      exact h
    have hr : OrchReachable 1 2 ⟨0, [TaskPhase.inflight, TaskPhase.waiting]⟩ :=
      Relation.ReflTransGen.single hstep
    have h2 := (claimC2_concurrency_ceiling 1 2 (by decide)).2
      ⟨0, [TaskPhase.inflight, TaskPhase.waiting]⟩ 0 (by decide) hr rfl 1 (by decide) rfl
    exact h2

/-! ## Claim about forecast-hour extraction -/

theorem takeWhileCh_append_eq (p : Char → Bool) (l : List Char) :
    (takeWhileCh p l).1 ++ (takeWhileCh p l).2 = l := by
  induction l with
  | nil => rfl
  | cons c cs ih => cases hc : p c <;> simp [takeWhileCh, hc, ih]

theorem takeWhileCh_all (p : Char → Bool) (l : List Char) :
    ∀ c ∈ (takeWhileCh p l).1, p c = true := by
  induction l with
  | nil => simp [takeWhileCh]
  | cons c cs ih =>
    cases hc : p c
    · simp [takeWhileCh, hc]
    · simp only [takeWhileCh, hc]
      intro a ha
      simp at ha
      rcases ha with rfl | ha
      · exact hc
      · exact ih a ha

theorem takeWhileCh_of_all (p : Char → Bool) (ds : List Char) (c' : Char) (r : List Char)
    (hds : ∀ c ∈ ds, p c = true) (hc' : p c' = false) :
    takeWhileCh p (ds ++ c' :: r) = (ds, c' :: r) := by
  induction ds with
  | nil => simp [takeWhileCh, hc']
  | cons a t ih =>
    have ha : p a = true := hds a (by simp)
    have ht : ∀ c ∈ t, p c = true := fun c hc => hds c (by simp [hc])
    simp [takeWhileCh, ha, ih ht]

theorem hourSuffixOk_eq (l : List Char) (h : hourSuffixOk l = true) :
    ∃ post, l = 'h' :: '-' :: post := by
  cases l with
  | nil => simp [hourSuffixOk] at h
  | cons a t =>
    cases t with
    | nil => simp [hourSuffixOk] at h
    | cons b t' =>
      simp [hourSuffixOk] at h
      exact ⟨t', by rw [h.1, h.2]⟩

theorem findHour_sound (s : List Char) (ds : List Char) (h : findHour s = some ds) :
    ds ≠ [] ∧ (∀ c ∈ ds, c.isDigit = true) ∧
    ∃ pre post, s = pre ++ '-' :: (ds ++ 'h' :: '-' :: post) := by
  induction s with
  | nil => simp [findHour] at h
  | cons c cs ih =>
    by_cases hcond : (c = '-' ∧ (takeWhileCh Char.isDigit cs).1.isEmpty = false
        ∧ hourSuffixOk (takeWhileCh Char.isDigit cs).2 = true)
    · rw [findHour, if_pos hcond] at h
      obtain ⟨hc, hne, hsuf⟩ := hcond
      have hds : ds = (takeWhileCh Char.isDigit cs).1 := (Option.some.injEq _ _ ▸ h).symm
      obtain ⟨post, hpost⟩ := hourSuffixOk_eq _ hsuf
      refine ⟨?_, ?_, [], post, ?_⟩
      · rw [hds]
        intro hnil
        rw [hnil] at hne
        simp at hne
      · rw [hds]
        exact takeWhileCh_all Char.isDigit cs
      · subst hc
        rw [hds]
        simp only [List.nil_append, List.cons.injEq]
        refine ⟨trivial, ?_⟩
        conv_lhs => rw [← takeWhileCh_append_eq Char.isDigit cs, hpost]
    · rw [findHour, if_neg hcond] at h
      obtain ⟨h1, h2, pre, post, heq⟩ := ih h
      exact ⟨h1, h2, c :: pre, post, by rw [heq]; rfl⟩

theorem findHour_complete (s : List Char) (h : hasHourToken s) :
    ∃ ds, findHour s = some ds := by
  induction s with
  | nil =>
    obtain ⟨pre, ds, post, hne, hdig, heq⟩ := h
    cases pre <;> simp at heq
  | cons c cs ih =>
    obtain ⟨pre, ds, post, hne, hdig, heq⟩ := h
    cases pre with
    | nil =>
      simp only [List.nil_append] at heq
      injection heq with h1 h2
      have hdsE : ds.isEmpty = false := by
        cases ds with
        | nil => exact absurd rfl hne
        | cons _ _ => rfl
      have htw : takeWhileCh Char.isDigit cs = (ds, 'h' :: '-' :: post) := by
        rw [h2]
        exact takeWhileCh_of_all _ ds 'h' ('-' :: post) hdig (by decide)
      have hcond : c = '-' ∧ (takeWhileCh Char.isDigit cs).1.isEmpty = false
          ∧ hourSuffixOk (takeWhileCh Char.isDigit cs).2 = true := by
        refine ⟨h1, ?_, ?_⟩
        · rw [htw]
          exact hdsE
        · rw [htw]
          rfl
      refine ⟨ds, ?_⟩
      rw [findHour, if_pos hcond, htw]
    | cons p pre' =>
      injection heq with h1 h2
      have hsub : hasHourToken cs := ⟨pre', ds, post, hne, hdig, h2⟩
      obtain ⟨ds', hds'⟩ := ih hsub
      by_cases hcond : (c = '-' ∧ (takeWhileCh Char.isDigit cs).1.isEmpty = false
          ∧ hourSuffixOk (takeWhileCh Char.isDigit cs).2 = true)
      · exact ⟨_, by rw [findHour, if_pos hcond]⟩
      · exact ⟨ds', by rw [findHour, if_neg hcond]; exact hds'⟩

/-- Claim C7: forecastHour is obtained by searching the display name for the
dash-digits-h-dash token: on the spec's example the digit group 6 is
extracted; when no such token occurs anywhere in the name the sentinel
unknown is produced; and whenever such a token occurs the result is the digit
group of an actual occurrence in the name. -/
theorem claimC7_forecast_hour :
    forecastHourOf (String.toList ("20250617120000-6h-oper-fc.grib2")) = "6" ∧
    (∀ s, ¬ hasHourToken s → forecastHourOf s = "unknown") ∧
    (∀ s, hasHourToken s → ∃ ds, ds ≠ [] ∧ (∀ c ∈ ds, c.isDigit = true) ∧
      (∃ pre post, s = pre ++ '-' :: (ds ++ 'h' :: '-' :: post)) ∧
      forecastHourOf s = String.mk ds) := by
  refine ⟨by decide, ?_, ?_⟩
  · intro s hno
    cases hfh : findHour s with
    | none => simp [forecastHourOf, hfh]
    | some ds =>
      obtain ⟨hne, hdig, pre, post, heq⟩ := findHour_sound s ds hfh
      exact absurd ⟨pre, ds, post, hne, hdig, heq⟩ hno
  · intro s htok
    obtain ⟨ds, hds⟩ := findHour_complete s htok
    obtain ⟨hne, hdig, pre, post, heq⟩ := findHour_sound s ds hds
    exact ⟨ds, hne, hdig, ⟨pre, post, heq⟩, by simp [forecastHourOf, hds]⟩

theorem claimC7_forecast_hour_witness :
    forecastHourOf (String.toList ("nohour.grib2")) = "unknown" ∧
    (∃ ds, ds ≠ [] ∧ (∀ c ∈ ds, c.isDigit = true) ∧
      (∃ pre post, String.toList ("a-12h-b") = pre ++ '-' :: (ds ++ 'h' :: '-' :: post)) ∧
      forecastHourOf (String.toList ("a-12h-b")) = String.mk ds) := by
  constructor
  · apply claimC7_forecast_hour.2.1
    intro htok
    obtain ⟨ds, hds⟩ := findHour_complete _ htok
    rw [show findHour (String.toList ("nohour.grib2")) = none by decide] at hds
    exact Option.noConfusion hds
  · exact claimC7_forecast_hour.2.2 (String.toList ("a-12h-b"))
      ⟨['a'], ['1', '2'], ['b'], by decide, by decide, by decide⟩

/-! ## Claims about the listing fetch and date validation -/

/-- Claim C4 counterexample: a listing fetch answered with status 500 — a
non-2xx status other than 404 — is caught inside list_available_files
(raise_for_status throws ClientResponseError, a ClientError, which the
handler absorbs) and the call returns the empty record sequence: an empty
listing, not an error surfaced to the caller. -/
theorem claimC4_counterexample :
    (list_available_files ecmwfBase "20250617" "12z" "ifs" "0p25" "oper"
      (ListingFetch.response 500 "")).1 = Except.ok [] := rfl

/-- Claim C4 amended: a 404 on the listing fetch yields the empty record
sequence without raising; every other error status (400 and above) and any
connection error are likewise caught and reported on the console only,
yielding the empty record sequence — no transport error propagates to the
caller of a listing call. -/
theorem claimC4_amended (base d ft m r dt body : String) (status : ℕ)
    (hv : validate_date_format d = true) :
    (list_available_files base d ft m r dt (ListingFetch.response 404 body)).1
      = Except.ok [] ∧
    (400 ≤ status →
      (list_available_files base d ft m r dt (ListingFetch.response status body)).1
        = Except.ok []) ∧
    (list_available_files base d ft m r dt ListingFetch.clientError).1 = Except.ok [] := by
  refine ⟨?_, ?_, ?_⟩
  · simp [list_available_files, hv]
  · intro hst
    by_cases h404 : status = 404 <;> simp [list_available_files, hv, h404, hst]
  · simp [list_available_files, hv]

theorem claimC4_amended_witness :
    (list_available_files ecmwfBase "20250617" "12z" "ifs" "0p25" "oper"
      (ListingFetch.response 404 "x")).1 = Except.ok [] ∧
    (list_available_files ecmwfBase "20250617" "12z" "ifs" "0p25" "oper"
      (ListingFetch.response 503 "x")).1 = Except.ok [] ∧
    (list_available_files ecmwfBase "20250617" "12z" "ifs" "0p25" "oper"
      ListingFetch.clientError).1 = Except.ok [] := by
  obtain ⟨h1, h2, h3⟩ := claimC4_amended ecmwfBase "20250617" "12z" "ifs" "0p25" "oper"
    "x" 503 (by decide)
  exact ⟨h1, h2 (by decide), h3⟩

/-- Claim C8: the claim is right about the intent but the code deviates.
validate_date_format delegates to strptime, whose month and day patterns also
match one-digit forms, so some strings that are not valid 8-digit YYYYMMDD
dates are accepted: for the seven-character date 2025061 the listing call
issues its network request and returns normally instead of raising the
AddressingError the claim (and the function's own docstring and error
message, Expected YYYYMMDD) call for, while the spec-side 8-digit validator
rejects that string.  For the dates the code does reject, the error is raised
before any network request, and such a rejection is the only error a listing
call can produce. -/
theorem claimC8_validation_gap :
    specValidDate8 "2025061" = false ∧
    validate_date_format "2025061" = true ∧
    list_available_files ecmwfBase "2025061" "12z" "ifs" "0p25" "oper"
      ListingFetch.clientError = (Except.ok [], 1) ∧
    (∀ base d ft m r dt net, validate_date_format d = false →
      list_available_files base d ft m r dt net
        = (Except.error ("Invalid date format: " ++ d ++ ". Expected YYYYMMDD."), 0)) ∧
    (∀ base d ft m r dt net e,
      (list_available_files base d ft m r dt net).1 = Except.error e →
      validate_date_format d = false ∧ (list_available_files base d ft m r dt net).2 = 0) := by
  refine ⟨by decide, by decide, rfl, ?_, ?_⟩
  · intro base d ft m r dt net hv
    simp [list_available_files, hv]
  · intro base d ft m r dt net e herr
    by_cases hv : validate_date_format d
    · exfalso
      cases net with
      | clientError => simp [list_available_files, hv] at herr
      | response st body =>
        by_cases h404 : st = 404
        · simp [list_available_files, hv, h404] at herr
        · by_cases h400 : 400 ≤ st
          · simp [list_available_files, hv, h404, h400] at herr
          · simp [list_available_files, hv, h404, h400] at herr
    · have hv' : validate_date_format d = false := by simpa using hv
      exact ⟨hv', by simp [list_available_files, hv']⟩

theorem claimC8_validation_gap_witness :
    list_available_files ecmwfBase "2025x617" "12z" "ifs" "0p25" "oper"
      ListingFetch.clientError
      = (Except.error ("Invalid date format: " ++ "2025x617" ++ ". Expected YYYYMMDD."), 0) ∧
    (validate_date_format "2025x617" = false ∧
      (list_available_files ecmwfBase "2025x617" "12z" "ifs" "0p25" "oper"
        ListingFetch.clientError).2 = 0) := by
  refine ⟨?_, ?_⟩
  · exact claimC8_validation_gap.2.2.2.1 ecmwfBase "2025x617" "12z" "ifs" "0p25" "oper"
      ListingFetch.clientError (by decide)
  · exact claimC8_validation_gap.2.2.2.2 ecmwfBase "2025x617" "12z" "ifs" "0p25" "oper"
      ListingFetch.clientError ("Invalid date format: " ++ "2025x617" ++ ". Expected YYYYMMDD.")
      rfl

/-! ## Claims about file-kind classification -/

theorem get_file_type_mem (f : String) :
    get_file_type f = "GRIB" ∨ get_file_type f = "NetCDF" ∨ get_file_type f = "Index" ∨
    get_file_type f = "Unknown" := by
  simp only [get_file_type]
  split_ifs <;> simp

/-- Claim C5 counterexample: the scraping pattern admits the listing entry
X.GRIB2 because its suffix matches the case-insensitive set, yet the record
built for it carries kind Unknown — _get_file_type compares suffixes
case-sensitively — whereas the precedence applied to the case-insensitive
suffix reading gives GRIB, so the derived kind is not consistent with the
suffix set by which the entry was admitted. -/
theorem claimC5_counterexample :
    (parse_data_files ecmwfBase docC5 "20250617" "12z" "ifs" "0p25" "oper").map
      (fun fi => fi.type) = ["Unknown"] ∧
    kindFromSuffixSpecCI "X.GRIB2" = "GRIB" := by
  exact ⟨rfl, rfl⟩

/-- Claim C5 amended: kind is the case-sensitive suffix precedence
_get_file_type applied to the raw display name — lower-case .grib/.grib2 give
GRIB, .nc/.netcdf give NetCDF, .idx gives Index, anything else (including
admitted names whose suffix differs in case, and the admitted .index suffix)
gives Unknown — so every record produced by the parser has kind in the set
GRIB, NetCDF, Index, Unknown. -/
theorem claimC5_amended :
    (∀ f : String, get_file_type f = "GRIB" ∨ get_file_type f = "NetCDF" ∨
      get_file_type f = "Index" ∨ get_file_type f = "Unknown") ∧
    (∀ base html date ft m r dt fi, fi ∈ parse_data_files base html date ft m r dt →
      fi.type = "GRIB" ∨ fi.type = "NetCDF" ∨ fi.type = "Index" ∨ fi.type = "Unknown") := by
  constructor
  · exact get_file_type_mem
  · intro base html date ft m r dt fi hfi
    unfold parse_data_files at hfi
    obtain ⟨e, he, rfl⟩ := List.mem_map.mp hfi
    exact get_file_type_mem _

theorem claimC5_amended_witness :
    c5rec.type = "GRIB" ∨ c5rec.type = "NetCDF" ∨ c5rec.type = "Index" ∨
    c5rec.type = "Unknown" :=
  claimC5_amended.2 ecmwfBase docC5 "20250617" "12z" "ifs" "0p25" "oper" c5rec
    (List.mem_map.mpr ⟨c5entry, by decide, rfl⟩)
